import Mathlib

/-! librelay: the RSK compatibility adapter (`rsk_compatibility.go`)

A shallow embedding of the three functions of the file:

* `PendingCodeAt`: one `eth_getCode` request on the client's RPC connection,
* `dialHTTP`: builds an `http.Client` around the given transport and dials,
* `Dial`: `dialHTTP` followed by `ethclient.NewClient`.

The functions only sequence calls into libraries (`rpc`, `net/http`,
`ethclient`, `hexutil`).  A Go function is embedded as a value of `Prog`: a tree
whose nodes are the library calls the function makes, in order, each carrying
the continuation that receives what the library returned.  The libraries are a
parameter (`Env`), and `Prog.run` executes a program against them, recording the
calls that were made.
-/

namespace Librelay

/-! ## Data model -/

/-- One Go `byte`. -/
abbrev Byte := Fin 256

/-- A Go `[]byte`, seen as the sequence of its contents: the nil slice and the
empty slice are both `[]`. -/
abbrev Bytes := List Byte

/-- A non-nil value of the Go interface `error`. -/
structure GoError where
  msg : String
deriving DecidableEq, Repr

/-- A value of the Go interface `error`; `none` is the nil error. -/
abbrev Err := Option GoError

/-- `common.Address`: an array of exactly 20 bytes. -/
structure Address where
  bytes : List Byte
  len : bytes.length = 20
deriving DecidableEq

/-- `context.Context`, observed through `ctx.Err()`: nil while the context is
live, `context.Canceled` or `context.DeadlineExceeded` afterwards. -/
structure Context where
  key : Nat
  Err : Err
deriving DecidableEq

/-- The error `context.Canceled`. -/
def Canceled : GoError := ⟨"context canceled"⟩

/-- The error `context.DeadlineExceeded`. -/
def DeadlineExceeded : GoError := ⟨"context deadline exceeded"⟩

/-- A live `*rpc.Client` connection. -/
structure RpcClient where
  conn : Nat
deriving DecidableEq, Repr

/-- Modelled from the spec: the type `TbkClient` is declared in another file of
the package; the adapter only uses its accessor `RPCClient()`, which gives the
RPC connection of "a connected client handle". -/
structure TbkClient where
  RPCClient : RpcClient
deriving DecidableEq, Repr

/-- A non-nil `http.RoundTripper`. -/
structure RoundTripper where
  ident : Nat
deriving DecidableEq, Repr

/-- A non-nil `http.Client.CheckRedirect` function. -/
structure RedirectPolicy where
  ident : Nat
deriving DecidableEq, Repr

/-- A non-nil `http.CookieJar`. -/
structure CookieJar where
  ident : Nat
deriving DecidableEq, Repr

/-- Modelled from the spec: the struct `http.Client` belongs to the standard
library `net/http`, outside the sources.  It is the record of the transport,
the redirect policy, the cookie jar and the timeout (a `time.Duration`, in
nanoseconds).  Interface and function fields are `none` when nil. -/
structure HttpClient where
  Transport : Option RoundTripper
  CheckRedirect : Option RedirectPolicy
  Jar : Option CookieJar
  Timeout : Int
deriving DecidableEq, Repr

/-- The value `new(http.Client)` points to: every field at its zero value. -/
def HttpClient.new : HttpClient := ⟨none, none, none, 0⟩

/-- Modelled from the spec: the struct `ethclient.Client` belongs to the client
library, outside the sources: the "higher-level blockchain client adapter", a
wrapper around a `*rpc.Client`, which may be nil. -/
structure EthClient where
  c : Option RpcClient
deriving DecidableEq, Repr

/-- Modelled from the spec: the constructor `ethclient.NewClient(c)` of the
client library, which "wraps" the RPC transport `c`: a non-nil pointer to a
client holding `c`. -/
def NewClient (c : Option RpcClient) : Option EthClient := some ⟨c⟩

/-- One positional parameter (`args ...interface{}`) of `CallContext`. -/
inductive Arg where
  | address (a : Address)
  | str (s : String)
deriving DecidableEq

/-- The arguments of one `CallContext(ctx, &result, method, args...)` call;
`result` is the contents of the result variable when the call is made. -/
structure CallRequest where
  ctx : Context
  result : Bytes
  method : String
  args : List Arg
deriving DecidableEq

/-- What one `CallContext` call leaves behind: the contents of the result
variable on return, and the returned error. -/
structure CallResponse where
  result : Bytes
  err : Err
deriving DecidableEq

/-- What `rpc.DialHTTPWithClient` returns: `(*rpc.Client, error)`. -/
abbrev DialResult := Option RpcClient × Err

/-! ## Programs over the libraries -/

/-- A Go function body, as the tree of the library calls it makes. -/
inductive Prog (α : Type) where
  | ret (a : α)
  | callContext (cli : RpcClient) (req : CallRequest) (k : CallResponse → Prog α)
  | dialHTTPWithClient (endpoint : String) (client : HttpClient) (k : DialResult → Prog α)

/-- Sequencing: run `p`, then `f` on its result. -/
def Prog.bind {α β : Type} : Prog α → (α → Prog β) → Prog β
  | .ret a, f => f a
  | .callContext cli req k, f => .callContext cli req (fun r => (k r).bind f)
  | .dialHTTPWithClient endpoint client k, f =>
      .dialHTTPWithClient endpoint client (fun r => (k r).bind f)

/-- A library call, as recorded when a program runs. -/
inductive Event where
  | callContext (cli : RpcClient) (req : CallRequest)
  | dialHTTPWithClient (endpoint : String) (client : HttpClient)
deriving DecidableEq

/-- The libraries and the network behind them: how `(*rpc.Client).CallContext`
and `rpc.DialHTTPWithClient` answer, over a state `σ` of the outside world. -/
structure Env (σ : Type) where
  CallContext : RpcClient → CallRequest → σ → CallResponse × σ
  DialHTTPWithClient : String → HttpClient → σ → DialResult × σ

/-- The outcome of running a program: the value it returns, the final state of
the outside world, and the calls it made, oldest first. -/
structure Outcome (σ α : Type) where
  value : α
  state : σ
  trace : List Event

/-- Run a program against the libraries, from state `s`, appending to `tr`. -/
def Prog.exec {σ α : Type} (env : Env σ) : Prog α → σ → List Event → Outcome σ α
  | .ret a, s, tr => ⟨a, s, tr⟩
  | .callContext cli req k, s, tr =>
      let r := env.CallContext cli req s
      (k r.1).exec env r.2 (tr ++ [Event.callContext cli req])
  | .dialHTTPWithClient endpoint client k, s, tr =>
      let r := env.DialHTTPWithClient endpoint client s
      (k r.1).exec env r.2 (tr ++ [Event.dialHTTPWithClient endpoint client])

/-- Run a program against the libraries from state `s`. -/
def Prog.run {σ α : Type} (env : Env σ) (p : Prog α) (s : σ) : Outcome σ α :=
  p.exec env s []

/-! ## The adapter -/

/-- The method `(cli *TbkClient) PendingCodeAt(ctx, account)`:
`var result hexutil.Bytes` starts nil, one `CallContext` on `cli.RPCClient()`,
then `return result, err`. -/
def PendingCodeAt (cli : TbkClient) (ctx : Context) (account : Address) : Prog (Bytes × Err) :=
  let result : Bytes := []
  .callContext cli.RPCClient ⟨ctx, result, "eth_getCode", [Arg.address account, Arg.str "latest"]⟩
    fun r => .ret (r.result, r.err)

/-- The function `dialHTTP(endpoint, transport)`: a fresh `http.Client` whose
`Transport` is set, handed to `rpc.DialHTTPWithClient`. -/
def dialHTTP (endpoint : String) (transport : Option RoundTripper) : Prog DialResult :=
  let cli := HttpClient.new
  let cli := { cli with Transport := transport }
  .dialHTTPWithClient endpoint cli fun r => .ret r

/-- The function `Dial(rawurl, transport)`: `dialHTTP`, then `nil, err` when the
error is not nil and `ethclient.NewClient(c), nil` otherwise. -/
def Dial (rawurl : String) (transport : Option RoundTripper) : Prog (Option EthClient × Err) :=
  (dialHTTP rawurl transport).bind fun (c, err) =>
    if err ≠ none then
      .ret (none, err)
    else
      .ret (NewClient c, none)

/-! ## Hex encoding of byte strings -/

/-- A failure of the hex decoder. -/
inductive HexError where
  | ErrMissingPrefix
  | ErrOddLength
  | ErrSyntax
deriving DecidableEq, Repr

/-- Modelled from the spec: the digit table of the "hex encode/decode utility
for byte arrays" (go-ethereum `hexutil` over `encoding/hex`), a library the
adapter consumes: the sixteen lower-case hex digits. -/
def hextable : List Char :=
  ['0', '1', '2', '3', '4', '5', '6', '7', '8', '9', 'a', 'b', 'c', 'd', 'e', 'f']

/-- Modelled from the spec: the hex encoder of the library, `hex.Encode`: two
digits per byte, the high half first. -/
def hexEncode : Bytes → List Char
  | [] => []
  | v :: rest => hextable.getD (v.val / 16) '0' :: hextable.getD (v.val % 16) '0' :: hexEncode rest

/-- Modelled from the spec: `hexutil.Encode`, the form of a "hex-encoded byte
string" of the wire protocol: `0x`, then the digits of `hexEncode`. -/
def Encode (b : Bytes) : List Char :=
  '0' :: 'x' :: hexEncode b

/-- Modelled from the spec: the value of one hex digit, of either case, as the
library's decoder reads it; `none` for any other character. -/
def fromHexChar (c : Char) : Option Nat :=
  if '0'.toNat ≤ c.toNat ∧ c.toNat ≤ '9'.toNat then some (c.toNat - '0'.toNat)
  else if 'a'.toNat ≤ c.toNat ∧ c.toNat ≤ 'f'.toNat then some (c.toNat - 'a'.toNat + 10)
  else if 'A'.toNat ≤ c.toNat ∧ c.toNat ≤ 'F'.toNat then some (c.toNat - 'A'.toNat + 10)
  else none

/-- Modelled from the spec: the hex decoder of the library, `hex.Decode`: each
pair of digits gives the byte `(a << 4) | b`; a character that is no hex digit,
or a digit left over, is an error. -/
def hexDecode : List Char → Except HexError Bytes
  | [] => .ok []
  | [_] => .error .ErrSyntax
  | p :: q :: rest =>
      match fromHexChar p, fromHexChar q with
      | some a, some b =>
          match hexDecode rest with
          | .ok dec => .ok (Fin.ofNat (a * 16 + b) :: dec)
          | .error e => .error e
      | _, _ => .error .ErrSyntax

/-- Modelled from the spec: the input check of `hexutil`: the empty text is
allowed, any other text must start with `0x` or `0X`, which is dropped, and
must then have an even number of characters. -/
def checkText : List Char → Except HexError (List Char)
  | [] => .ok []
  | '0' :: 'x' :: raw => if raw.length % 2 ≠ 0 then .error .ErrOddLength else .ok raw
  | '0' :: 'X' :: raw => if raw.length % 2 ≠ 0 then .error .ErrOddLength else .ok raw
  | _ => .error .ErrMissingPrefix

/-- Modelled from the spec: `(*hexutil.Bytes).UnmarshalText`, the decoder of the
result type of `PendingCodeAt`: `cur` is the contents of the receiver, which
are replaced by the decoded bytes on success and kept on failure. -/
def UnmarshalText (cur : Bytes) (input : List Char) : Bytes × Option HexError :=
  match checkText input with
  | .error e => (cur, some e)
  | .ok raw =>
      match hexDecode raw with
      | .ok dec => (dec, none)
      | .error e => (cur, some e)

/-! ## Observations on runs -/

/-- The call of `PendingCodeAt` to the library, `cli.RPCClient().CallContext(ctx,
&result, "eth_getCode", account, "latest")` with `result` still nil, answered by
`env` in state `s`: what the call leaves behind, and the next state. -/
def underlyingCall {σ : Type} (env : Env σ) (cli : TbkClient) (ctx : Context) (account : Address)
    (s : σ) : CallResponse × σ :=
  env.CallContext cli.RPCClient ⟨ctx, [], "eth_getCode", [Arg.address account, Arg.str "latest"]⟩ s

/-- The method name of a recorded `CallContext`. -/
def Event.method : Event → Option String
  | .callContext _ req => some req.method
  | .dialHTTPWithClient _ _ => none

/-- The state qualifier of a recorded `eth_getCode` request: its second
positional parameter, the block tag the code is read at. -/
def Event.stateQualifier : Event → Option Arg
  | .callContext _ req => req.args.get? 1
  | .dialHTTPWithClient _ _ => none

/-! ## Sample inputs -/

/-- The zero address. -/
def sampleAccount : Address := ⟨List.replicate 20 0, rfl⟩

/-- A connected client. -/
def sampleClient : TbkClient := ⟨⟨1⟩⟩

/-- A context that is still live. -/
def liveCtx : Context := ⟨0, none⟩

/-- A context that has been cancelled. -/
def cancelledCtx : Context := ⟨1, some Canceled⟩

/-- A sample node and dialer, over a counter of the requests served.
`CallContext` returns the error of a finished context and leaves the result
variable alone, and otherwise decodes the two bytes `60 80` into it.  The dialer
refuses the empty URL and connects to any other. -/
def sampleNode : Env Nat where
  CallContext := fun _ req n =>
    match req.ctx.Err with
    | some e => (⟨req.result, some e⟩, n + 1)
    | none => (⟨[0x60, 0x80], none⟩, n + 1)
  DialHTTPWithClient := fun endpoint _ n =>
    if endpoint.length = 0 then ((none, some ⟨"no host in request URL"⟩), n + 1)
    else ((some ⟨n⟩, none), n + 1)

/-- A sample node whose accounts have no code: every request succeeds and
decodes to no bytes. -/
def emptyNode : Env Nat where
  CallContext := fun _ _ n => (⟨[], none⟩, n + 1)
  DialHTTPWithClient := fun _ _ n => ((some ⟨n⟩, none), n + 1)

/-- A sample node that fails every request after writing one byte to the
result variable. -/
def brokenNode : Env Nat where
  CallContext := fun _ _ n => (⟨[0xfe], some ⟨"unexpected EOF"⟩⟩, n + 1)
  DialHTTPWithClient := fun _ _ n => ((some ⟨n⟩, some ⟨"half open"⟩), n + 1)

/-! ## Shared lemmas -/

/-- A run of `PendingCodeAt`, in full. -/
theorem PendingCodeAt_run {σ : Type} (env : Env σ) (s : σ) (cli : TbkClient) (ctx : Context)
    (account : Address) :
    (PendingCodeAt cli ctx account).run env s =
      ⟨((underlyingCall env cli ctx account s).1.result, (underlyingCall env cli ctx account s).1.err),
        (underlyingCall env cli ctx account s).2,
        [Event.callContext cli.RPCClient
          ⟨ctx, [], "eth_getCode", [Arg.address account, Arg.str "latest"]⟩]⟩ :=
  rfl

/-- A run of `dialHTTP`, in full. -/
theorem dialHTTP_run {σ : Type} (env : Env σ) (s : σ) (endpoint : String)
    (transport : Option RoundTripper) :
    (dialHTTP endpoint transport).run env s =
      ⟨(env.DialHTTPWithClient endpoint ⟨transport, none, none, 0⟩ s).1,
        (env.DialHTTPWithClient endpoint ⟨transport, none, none, 0⟩ s).2,
        [Event.dialHTTPWithClient endpoint ⟨transport, none, none, 0⟩]⟩ :=
  rfl

/-- The calls and the final state of `Dial` are those of `dialHTTP`. -/
theorem Dial_run_trace {σ : Type} (env : Env σ) (s : σ) (rawurl : String)
    (transport : Option RoundTripper) :
    ((Dial rawurl transport).run env s).trace = ((dialHTTP rawurl transport).run env s).trace ∧
    ((Dial rawurl transport).run env s).state = ((dialHTTP rawurl transport).run env s).state := by
  simp only [Dial, dialHTTP, Prog.run, Prog.bind, Prog.exec]
  rcases hd : env.DialHTTPWithClient rawurl ⟨transport, none, none, 0⟩ s with ⟨⟨c, err⟩, s1⟩
  cases err <;> simp [HttpClient.new, hd, Prog.exec]

/-- The value of `Dial` when `dialHTTP` returns a non-nil error. -/
theorem Dial_run_err {σ : Type} (env : Env σ) (s : σ) (rawurl : String)
    (transport : Option RoundTripper) (e : GoError)
    (h : ((dialHTTP rawurl transport).run env s).value.2 = some e) :
    ((Dial rawurl transport).run env s).value = (none, some e) := by
  rw [dialHTTP_run] at h
  simp only [Dial, dialHTTP, Prog.run, Prog.bind, Prog.exec] at h ⊢
  rcases hd : env.DialHTTPWithClient rawurl ⟨transport, none, none, 0⟩ s with ⟨⟨c, err⟩, s1⟩
  rw [hd] at h
  simp only at h
  subst h
  simp [HttpClient.new, hd, Prog.exec]

/-- The value of `Dial` when `dialHTTP` returns a nil error. -/
theorem Dial_run_ok {σ : Type} (env : Env σ) (s : σ) (rawurl : String)
    (transport : Option RoundTripper)
    (h : ((dialHTTP rawurl transport).run env s).value.2 = none) :
    ((Dial rawurl transport).run env s).value =
      (NewClient ((dialHTTP rawurl transport).run env s).value.1, none) := by
  rw [dialHTTP_run] at h ⊢
  simp only [Dial, dialHTTP, Prog.run, Prog.bind, Prog.exec] at h ⊢
  rcases hd : env.DialHTTPWithClient rawurl ⟨transport, none, none, 0⟩ s with ⟨⟨c, err⟩, s1⟩
  rw [hd] at h
  simp only at h
  subst h
  simp [HttpClient.new, hd, Prog.exec]

/-! ## PendingCodeAt -/

/-- C1: for every client, context and 20-byte account, and whatever the
libraries answer, `PendingCodeAt` is one `CallContext` node followed by a plain
return, and a run of it makes exactly one call: `CallContext` on the client's
RPC connection with the same context, the method `eth_getCode` and the two
parameters `account`, `latest` in that order.  The outside world is left in the
state that one call produced. -/
theorem PendingCodeAt_exactly_one_call {σ : Type} (env : Env σ) (s : σ) (cli : TbkClient)
    (ctx : Context) (account : Address) :
    (∃ k : CallResponse → Bytes × Err,
      PendingCodeAt cli ctx account =
        Prog.callContext cli.RPCClient
          ⟨ctx, [], "eth_getCode", [Arg.address account, Arg.str "latest"]⟩
          (fun r => Prog.ret (k r))) ∧
    ((PendingCodeAt cli ctx account).run env s).trace =
      [Event.callContext cli.RPCClient
        ⟨ctx, [], "eth_getCode", [Arg.address account, Arg.str "latest"]⟩] ∧
    ((PendingCodeAt cli ctx account).run env s).trace.length = 1 ∧
    ((PendingCodeAt cli ctx account).run env s).state =
      (env.CallContext cli.RPCClient
        ⟨ctx, [], "eth_getCode", [Arg.address account, Arg.str "latest"]⟩ s).2 :=
  ⟨⟨fun r => (r.result, r.err), rfl⟩, rfl, rfl, rfl⟩

/-- C2: the code at the zero address, with a live context, on the sample node.
The doc comment of `PendingCodeAt` promises the code of the account in the
pending state; the one request the method issues is an `eth_getCode` whose
state qualifier is the tag `latest`, so the qualifier is not `pending`. -/
theorem PendingCodeAt_zero_address_requests_latest :
    ((PendingCodeAt sampleClient liveCtx sampleAccount).run sampleNode 0).trace =
      [Event.callContext sampleClient.RPCClient
        ⟨liveCtx, [], "eth_getCode", [Arg.address sampleAccount, Arg.str "latest"]⟩] ∧
    (∀ e ∈ ((PendingCodeAt sampleClient liveCtx sampleAccount).run sampleNode 0).trace,
      e.method = some "eth_getCode" ∧ e.stateQualifier = some (Arg.str "latest")) ∧
    ¬ ∀ e ∈ ((PendingCodeAt sampleClient liveCtx sampleAccount).run sampleNode 0).trace,
        e.stateQualifier = some (Arg.str "pending") := by
  rw [PendingCodeAt_run]
  refine ⟨rfl, ?_, ?_⟩
  · intro e he
    rw [List.mem_singleton.mp he]
    exact ⟨rfl, rfl⟩
  · intro h
    have h1 := h _ (List.mem_singleton.mpr rfl)
    simp [Event.stateQualifier] at h1

/-- C3: for every client, context and account, the error `PendingCodeAt`
returns is the error value its `CallContext` call returned, as it is; so it is
nil exactly when the call returned nil. -/
theorem PendingCodeAt_error_verbatim {σ : Type} (env : Env σ) (s : σ) (cli : TbkClient)
    (ctx : Context) (account : Address) :
    ((PendingCodeAt cli ctx account).run env s).value.2 =
      (underlyingCall env cli ctx account s).1.err ∧
    (((PendingCodeAt cli ctx account).run env s).value.2 = none ↔
      (underlyingCall env cli ctx account s).1.err = none) :=
  ⟨rfl, Iff.rfl⟩

/-- C4: for every client, context and account, when the underlying call
succeeds, `PendingCodeAt` returns the byte sequence the call decoded into the
result variable, byte for byte, with a nil error; when that sequence has no
bytes, the returned one has length 0. -/
theorem PendingCodeAt_success_bytes {σ : Type} (env : Env σ) (s : σ) (cli : TbkClient)
    (ctx : Context) (account : Address)
    (hok : (underlyingCall env cli ctx account s).1.err = none) :
    ((PendingCodeAt cli ctx account).run env s).value =
      ((underlyingCall env cli ctx account s).1.result, none) ∧
    ((underlyingCall env cli ctx account s).1.result = [] →
      ((PendingCodeAt cli ctx account).run env s).value.1.length = 0) := by
  rw [PendingCodeAt_run, hok]
  refine ⟨rfl, ?_⟩
  intro h
  simp [h]

/-- C4 at sample inputs: the sample node decodes `60 80`, and those two bytes
are what `PendingCodeAt` returns; the node without code decodes no bytes, and
the returned sequence has length 0. -/
theorem PendingCodeAt_success_bytes_witness :
    (underlyingCall sampleNode sampleClient liveCtx sampleAccount 0).1.err = none ∧
    ((PendingCodeAt sampleClient liveCtx sampleAccount).run sampleNode 0).value =
      ([0x60, 0x80], none) ∧
    (underlyingCall emptyNode sampleClient liveCtx sampleAccount 0).1.err = none ∧
    ((PendingCodeAt sampleClient liveCtx sampleAccount).run emptyNode 0).value.1.length = 0 :=
  ⟨rfl, (PendingCodeAt_success_bytes sampleNode 0 sampleClient liveCtx sampleAccount rfl).1,
    rfl, (PendingCodeAt_success_bytes emptyNode 0 sampleClient liveCtx sampleAccount rfl).2 rfl⟩

/-- C8: for every client and account, when the library's `CallContext` reports
an error for every request whose context is cancelled or expired, a cancelled
or expired context passed to `PendingCodeAt` reaches the call unchanged, and
`PendingCodeAt` returns the error of that call, which is not nil. -/
theorem PendingCodeAt_cancelled_context {σ : Type} (env : Env σ) (s : σ) (cli : TbkClient)
    (ctx : Context) (account : Address)
    (hlib : ∀ (c : RpcClient) (req : CallRequest) (st : σ),
      req.ctx.Err ≠ none → (env.CallContext c req st).1.err ≠ none)
    (hctx : ctx.Err ≠ none) :
    (∀ c req, Event.callContext c req ∈ ((PendingCodeAt cli ctx account).run env s).trace →
      req.ctx = ctx) ∧
    ((PendingCodeAt cli ctx account).run env s).value.2 =
      (underlyingCall env cli ctx account s).1.err ∧
    ((PendingCodeAt cli ctx account).run env s).value.2 ≠ none := by
  rw [PendingCodeAt_run]
  refine ⟨?_, rfl, ?_⟩
  · intro c req h
    have h1 := List.mem_singleton.mp h
    injection h1 with _ h2
    rw [h2]
  · exact hlib _ _ _ hctx

/-- C8 at sample inputs: the sample node honours cancellation, and a cancelled
context makes `PendingCodeAt` return `context.Canceled`. -/
theorem PendingCodeAt_cancelled_context_witness :
    cancelledCtx.Err ≠ none ∧
    ((PendingCodeAt sampleClient cancelledCtx sampleAccount).run sampleNode 0).value.2 =
      some Canceled ∧
    ((PendingCodeAt sampleClient cancelledCtx sampleAccount).run sampleNode 0).value.2 ≠ none := by
  have hlib : ∀ (c : RpcClient) (req : CallRequest) (st : Nat),
      req.ctx.Err ≠ none → (sampleNode.CallContext c req st).1.err ≠ none := by
    intro c req st h
    cases hreq : req.ctx.Err with
    | none => exact absurd hreq h
    | some e => simp [sampleNode, hreq]
  have hctx : cancelledCtx.Err ≠ none := by simp [cancelledCtx]
  have h := PendingCodeAt_cancelled_context sampleNode 0 sampleClient cancelledCtx sampleAccount
    hlib hctx
  exact ⟨hctx, rfl, h.2.2⟩

/-- C10: for every client, context and account, when the underlying call fails,
`PendingCodeAt` returns next to the error the contents the call left in the
result variable, uncleared: the nil sequence when the call left the variable as
it received it, and a non-empty sequence only when the call left one there. -/
theorem PendingCodeAt_failure_keeps_result {σ : Type} (env : Env σ) (s : σ) (cli : TbkClient)
    (ctx : Context) (account : Address)
    (hfail : (underlyingCall env cli ctx account s).1.err ≠ none) :
    ((PendingCodeAt cli ctx account).run env s).value =
      ((underlyingCall env cli ctx account s).1.result,
        (underlyingCall env cli ctx account s).1.err) ∧
    ((PendingCodeAt cli ctx account).run env s).value.2 ≠ none ∧
    (∀ c req, Event.callContext c req ∈ ((PendingCodeAt cli ctx account).run env s).trace →
      (underlyingCall env cli ctx account s).1.result = req.result →
        ((PendingCodeAt cli ctx account).run env s).value.1 = []) ∧
    (((PendingCodeAt cli ctx account).run env s).value.1 ≠ [] →
      (underlyingCall env cli ctx account s).1.result ≠ []) := by
  rw [PendingCodeAt_run]
  refine ⟨rfl, hfail, ?_, fun h => h⟩
  intro c req h hres
  have h1 := List.mem_singleton.mp h
  injection h1 with _ h2
  simp only [hres, h2]

/-- C10 at sample inputs: the broken node fails after writing the byte `fe`, and
`PendingCodeAt` returns that byte next to the error. -/
theorem PendingCodeAt_failure_keeps_result_witness :
    (underlyingCall brokenNode sampleClient liveCtx sampleAccount 0).1.err ≠ none ∧
    ((PendingCodeAt sampleClient liveCtx sampleAccount).run brokenNode 0).value =
      ([0xfe], some ⟨"unexpected EOF"⟩) :=
  ⟨by simp [underlyingCall, brokenNode],
    (PendingCodeAt_failure_keeps_result brokenNode 0 sampleClient liveCtx sampleAccount
      (by simp [underlyingCall, brokenNode])).1⟩

/-! ## Dial and dialHTTP -/

/-- C5: for every URL and transport, if `dialHTTP` on that URL and transport
fails with error `e`, `Dial` returns a nil client together with `e` itself; and
`Dial` never returns a non-nil client together with a non-nil error. -/
theorem Dial_failure_propagates {σ : Type} (env : Env σ) (s : σ) (rawurl : String)
    (transport : Option RoundTripper) :
    (∀ e : GoError, ((dialHTTP rawurl transport).run env s).value.2 = some e →
      ((Dial rawurl transport).run env s).value = (none, some e)) ∧
    ¬ (((Dial rawurl transport).run env s).value.1 ≠ none ∧
        ((Dial rawurl transport).run env s).value.2 ≠ none) := by
  refine ⟨fun e h => Dial_run_err env s rawurl transport e h, ?_⟩
  rintro ⟨hcli, herr⟩
  cases hd : ((dialHTTP rawurl transport).run env s).value.2 with
  | none => rw [Dial_run_ok env s rawurl transport hd] at herr; exact herr rfl
  | some e => rw [Dial_run_err env s rawurl transport e hd] at hcli; exact hcli rfl

/-- C5 at sample inputs: the sample dialer refuses the empty URL, and `Dial`
returns no client and the dialer's error. -/
theorem Dial_failure_propagates_witness :
    ((dialHTTP "" none).run sampleNode 0).value.2 = some ⟨"no host in request URL"⟩ ∧
    ((Dial "" none).run sampleNode 0).value = (none, some ⟨"no host in request URL"⟩) :=
  ⟨rfl, (Dial_failure_propagates sampleNode 0 "" none).1 ⟨"no host in request URL"⟩ rfl⟩

/-- C6: for every URL and transport, `Dial` makes one call, the dialer on
`rawurl` as given, whatever its scheme; if `dialHTTP` succeeds with RPC client
`c`, `Dial` returns `ethclient.NewClient(c)` and a nil error; and `Dial` returns
a non-nil error exactly when the dialer does. -/
theorem Dial_success_wraps {σ : Type} (env : Env σ) (s : σ) (rawurl : String)
    (transport : Option RoundTripper) :
    ((Dial rawurl transport).run env s).trace =
      [Event.dialHTTPWithClient rawurl ⟨transport, none, none, 0⟩] ∧
    (∀ c : Option RpcClient, ((dialHTTP rawurl transport).run env s).value = (c, none) →
      ((Dial rawurl transport).run env s).value = (NewClient c, none)) ∧
    (((Dial rawurl transport).run env s).value.2 ≠ none ↔
      (env.DialHTTPWithClient rawurl ⟨transport, none, none, 0⟩ s).1.2 ≠ none) := by
  refine ⟨?_, ?_, ?_⟩
  · rw [(Dial_run_trace env s rawurl transport).1, dialHTTP_run]
  · intro c h
    have h2 : ((dialHTTP rawurl transport).run env s).value.2 = none := by rw [h]
    rw [Dial_run_ok env s rawurl transport h2, h]
  · have hv : (env.DialHTTPWithClient rawurl ⟨transport, none, none, 0⟩ s).1.2 =
        ((dialHTTP rawurl transport).run env s).value.2 := by rw [dialHTTP_run]
    rw [hv]
    cases hd : ((dialHTTP rawurl transport).run env s).value.2 with
    | none => rw [Dial_run_ok env s rawurl transport hd]
    | some e => rw [Dial_run_err env s rawurl transport e hd]

/-- C6 at sample inputs: the sample dialer connects a websocket URL as it
would any other, and `Dial` wraps the connection it returns. -/
theorem Dial_success_wraps_witness :
    ((dialHTTP "ws://localhost:4444" none).run sampleNode 7).value = (some ⟨7⟩, none) ∧
    ((Dial "ws://localhost:4444" none).run sampleNode 7).value = (NewClient (some ⟨7⟩), none) :=
  ⟨by decide, (Dial_success_wraps sampleNode 7 "ws://localhost:4444" none).2.1 (some ⟨7⟩)
    (by decide)⟩

/-- C7: for every endpoint and transport, `dialHTTP` makes one call, to
`rpc.DialHTTPWithClient`, and the HTTP client it hands over has the given
transport in its `Transport` field and the zero value in every other field: no
redirect policy, no cookie jar, no timeout.  The client is the same for every
endpoint and every state of the outside world: it depends on the transport
only. -/
theorem dialHTTP_client_only_transport {σ : Type} (env : Env σ) (s : σ) (endpoint : String)
    (transport : Option RoundTripper) :
    ∃ client : HttpClient,
      ((dialHTTP endpoint transport).run env s).trace =
        [Event.dialHTTPWithClient endpoint client] ∧
      client.Transport = transport ∧ client.CheckRedirect = none ∧ client.Jar = none ∧
      client.Timeout = 0 ∧
      ∀ (endpoint2 : String) (s2 : σ), ((dialHTTP endpoint2 transport).run env s2).trace =
        [Event.dialHTTPWithClient endpoint2 client] :=
  ⟨⟨transport, none, none, 0⟩, rfl, rfl, rfl, rfl, rfl, fun _ _ => rfl⟩

/-! ## Hex round trip -/

/-- Each of the sixteen digits of the table reads back as its index. -/
theorem fromHexChar_hextable : ∀ n : Fin 16, fromHexChar (hextable.getD n.val '0') = some n.val := by
  decide

/-- A byte is rebuilt from its two halves. -/
theorem byte_of_halves (v : Byte) : (Fin.ofNat (v.val / 16 * 16 + v.val % 16) : Byte) = v := by
  apply Fin.ext
  simp [Fin.ofNat]
  omega

/-- The encoder writes an even number of digits. -/
theorem hexEncode_length (b : Bytes) : (hexEncode b).length = 2 * b.length := by
  induction b with
  | nil => rfl
  | cons v rest ih => simp [hexEncode, ih]; omega

/-- Decoding the digits of a byte sequence gives the sequence back. -/
theorem hexDecode_hexEncode (b : Bytes) : hexDecode (hexEncode b) = .ok b := by
  induction b with
  | nil => rfl
  | cons v rest ih =>
      have hhi := fromHexChar_hextable ⟨v.val / 16, by omega⟩
      have hlo := fromHexChar_hextable ⟨v.val % 16, by omega⟩
      simp only at hhi hlo
      simp only [hexEncode, hexDecode, hhi, hlo, ih, byte_of_halves]

/-- C9: for every byte sequence `b`, its hex encoding is `0x` followed by two
digits per byte, and decoding that text into a `hexutil.Bytes`, whatever the
variable held before, succeeds and yields exactly `b`. -/
theorem hex_roundtrip (b cur : Bytes) :
    (Encode b).take 2 = ['0', 'x'] ∧ (Encode b).length = 2 + 2 * b.length ∧
    UnmarshalText cur (Encode b) = (b, none) := by
  refine ⟨rfl, ?_, ?_⟩
  · simp [Encode, hexEncode_length]; omega
  · have hlen : ¬ (hexEncode b).length % 2 ≠ 0 := by rw [hexEncode_length]; omega
    simp only [UnmarshalText, Encode, checkText, hlen, if_false, hexDecode_hexEncode]

end Librelay
